import Mathlib

/-!
Verification of `twisted/python/logger/_filter.py`: the filtering log
observer, the predicate-chain evaluator `shouldLogEvent`, and the
namespace-level resolver `LogLevelFilterPredicate`.

The Python code is shallowly embedded: dicts become functions to `Option`,
raised exceptions become `Except.error`, and the event is a record of the
three optional fields the module reads (`log_level`, `log_namespace`,
`log_trace`).
-/

namespace TwistedFilter

/-- Modelled from the spec: the externally defined `LogLevel` enumeration
(`twisted.python.logger._levels`, not part of the sources under review),
described as a closed, totally ordered set of severity values
debug < info < warn < error (plus critical), with an integer priority. -/
inductive LogLevel where
  | debug
  | info
  | warn
  | error
  | critical
  deriving DecidableEq, Repr

/-- Modelled from the spec: `LogLevel._priorityForLevel`, the derived integer
priority of a level, ordered debug < info < warn < error < critical. -/
def priorityForLevel : LogLevel → Nat
  | .debug => 0
  | .info => 1
  | .warn => 2
  | .error => 3
  | .critical => 4

/-- Python exceptions that the module can raise. -/
inductive PyErr where
  | typeError (msg : String)
  | keyError
  | attributeError (name : String)
  | invalidLogLevelError (levelRepr : String)
  deriving DecidableEq, Repr

/-- `PredicateResult` from `_filter.py`: yes / no / maybe. -/
inductive PredicateResult where
  | yes
  | no
  | maybe
  deriving DecidableEq, Repr

/-- The value actually returned by a Python predicate call: either one of the
three `PredicateResult` constants, or an arbitrary other object (carried as
its repr string), which `shouldLogEvent` must reject. -/
inductive PredicateReturn where
  | valid (r : PredicateResult)
  | invalid (objRepr : String)
  deriving DecidableEq, Repr

/-- Attributes of a `FilteringLogObserver` instance.  `__init__` sets exactly
two: `_observer` (the wrapped downstream observer, carried as an opaque
identifier) and `_shouldLogEvent` (the bound partial application). -/
inductive FLOAttr where
  | observerAttr (oid : Nat)
  | shouldLogEventAttr
  deriving DecidableEq, Repr

/-- A log event: the module only ever reads the optional fields `log_level`,
`log_namespace` and `log_trace` (a list it appends `(self, self.observer)`
pairs to).  `none` means the key is absent from the dict. -/
structure Event where
  log_level : Option LogLevel
  log_namespace : Option String
  log_trace : Option (List (Nat × FLOAttr))
  deriving DecidableEq, Repr

/-- A predicate as consumed by `shouldLogEvent`: a callable from an event to
an arbitrary return value. -/
abbrev Predicate := Event → PredicateReturn

/-- `shouldLogEvent(predicates, event)` from `_filter.py` lines 43-73:
iterate the predicates in order; `yes` returns `True`, `no` returns `False`,
`maybe` continues, anything else raises
`TypeError("Invalid predicate result: {0!r}".format(result))`; exhaustion
returns `True`. -/
def shouldLogEvent : List Predicate → Event → Except PyErr Bool
  | [], _ => .ok true
  | p :: ps, event =>
    match p event with
    | .valid .yes => .ok true
    | .valid .no => .ok false
    | .valid .maybe => shouldLogEvent ps event
    | .invalid objRepr =>
        .error (.typeError ("Invalid predicate result: " ++ objRepr))

/-- A `FilteringLogObserver` instance: `selfId` is the identity of the
instance itself (Python `self`), `observerId` the identity of the wrapped
downstream observer stored in `self._observer`, and `predicates` the frozen
`list(predicates)` captured by the `partial` in `__init__`. -/
structure FilteringLogObserver where
  selfId : Nat
  observerId : Nat
  predicates : List Predicate

/-- Python attribute lookup on a `FilteringLogObserver` instance.  Only the
attributes assigned in `__init__` exist; any other name raises
`AttributeError`.  In particular `self.observer` (without the underscore,
as written on line 104 of `_filter.py`) is not an attribute. -/
def floGetattr (o : FilteringLogObserver) (name : String) : Except PyErr FLOAttr :=
  if name = "_observer" then .ok (.observerAttr o.observerId)
  else if name = "_shouldLogEvent" then .ok .shouldLogEventAttr
  else .error (.attributeError name)

/-- `FilteringLogObserver.__call__` from `_filter.py` lines 98-105: evaluate
the predicate chain; on `True`, if `"log_trace" in event` append
`(self, self.observer)` to the trace list, then call `self._observer(event)`.
Returns the (possibly mutated) event and the list of observer identities the
event was delivered to. -/
def FilteringLogObserver.call (o : FilteringLogObserver) (event : Event) :
    Except PyErr (Event × List Nat) := do
  let pass ← shouldLogEvent o.predicates event
  if pass then
    match event.log_trace with
    | some tr => do
        let obsAttr ← floGetattr o "observer"
        let event := { event with log_trace := some (tr ++ [(o.selfId, obsAttr)]) }
        let obs ← floGetattr o "_observer"
        match obs with
        | .observerAttr oid => pure (event, [oid])
        | .shouldLogEventAttr => pure (event, [])
    | none => do
        let obs ← floGetattr o "_observer"
        match obs with
        | .observerAttr oid => pure (event, [oid])
        | .shouldLogEventAttr => pure (event, [])
  else
    pure (event, [])

/-- A key of the `_logLevelsByNamespace` dict: either `None` (the default
namespace) or a namespace string. -/
abbrev NSKey := Option String

/-- Faithful model of Python `namespace.split(".")` on the character list:
splits at every dot, keeping empty pieces, and `[]` maps to `[[]]` so that
`"".split(".") == [""]`. -/
def splitDotChars : List Char → List (List Char)
  | [] => [[]]
  | c :: cs =>
    if c = '.' then [] :: splitDotChars cs
    else
      match splitDotChars cs with
      | [] => [[c]]
      | g :: gs => (c :: g) :: gs

/-- Python `namespace.split(".")`. -/
def splitDots (s : String) : List String :=
  (splitDotChars s.data).map (fun cs => String.mk cs)

/-- Python `".".join(segments)`. -/
def joinDots : List String → String
  | [] => ""
  | [s] => s
  | s :: rest => s ++ "." ++ joinDots rest

/-- `LogLevelFilterPredicate` instance state: the dict
`_logLevelsByNamespace` (as a function from key to optional level) and the
attribute `defaultLogLevel`. -/
structure LogLevelFilterPredicate where
  logLevelsByNamespace : NSKey → Option LogLevel
  defaultLogLevel : LogLevel

/-- Python dict indexing `d[k]`: `KeyError` when the key is absent. -/
def dictIndex (m : NSKey → Option LogLevel) (k : NSKey) : Except PyErr LogLevel :=
  match m k with
  | some l => .ok l
  | none => .error .keyError

/-- Python dict assignment `d[k] = v`. -/
def dictSet (m : NSKey → Option LogLevel) (k : NSKey) (v : LogLevel) :
    NSKey → Option LogLevel :=
  fun k' => if k' = k then some v else m k'

/-- The inner `while index > 0` loop of `logLevelForNamespace`
(`_filter.py` lines 149-153): for `index`, `index-1`, ..., `1` look up
`".".join(segments[:index])` and return the first hit. -/
def ancestorSearch (m : NSKey → Option LogLevel) (segments : List String) :
    Nat → Option LogLevel
  | 0 => none
  | i + 1 =>
    match m (some (joinDots (segments.take (i + 1)))) with
    | some l => some l
    | none => ancestorSearch m segments i

/-- `LogLevelFilterPredicate.logLevelForNamespace` (`_filter.py` lines
124-155): falsy namespace (None or empty) reads the `None` entry; an exact
entry wins; otherwise the while loop searches dot-ancestors from
`len(segments)-1` segments down to 1; otherwise the `None` entry. -/
def logLevelForNamespace (s : LogLevelFilterPredicate) (ns : Option String) :
    Except PyErr LogLevel :=
  match ns with
  | none => dictIndex s.logLevelsByNamespace none
  | some n =>
    if n = "" then dictIndex s.logLevelsByNamespace none
    else
      match s.logLevelsByNamespace (some n) with
      | some l => .ok l
      | none =>
        let segments := splitDots n
        match ancestorSearch s.logLevelsByNamespace segments (segments.length - 1) with
        | some l => .ok l
        | none => dictIndex s.logLevelsByNamespace none

/-- The level argument handed to `setLogLevelForNamespace`: either one of
the `LogLevel` constants, or any other Python object (carried as its repr),
which is not in `LogLevel.iterconstants()`. -/
inductive PyLevel where
  | level (l : LogLevel)
  | other (objRepr : String)
  deriving DecidableEq, Repr

/-- `LogLevelFilterPredicate.setLogLevelForNamespace` (`_filter.py` lines
158-174): a level outside `LogLevel.iterconstants()` raises
`InvalidLogLevelError(level)` before any mutation; a truthy namespace sets
its exact entry, a falsy one sets the `None` entry.  Returns the call
outcome together with the state after the call. -/
def setLogLevelForNamespace (s : LogLevelFilterPredicate) (ns : Option String)
    (level : PyLevel) : Except PyErr Unit × LogLevelFilterPredicate :=
  match level with
  | .other objRepr => (.error (.invalidLogLevelError objRepr), s)
  | .level l =>
    match ns with
    | some n =>
      if n = "" then
        (.ok (), { s with logLevelsByNamespace := dictSet s.logLevelsByNamespace none l })
      else
        (.ok (), { s with logLevelsByNamespace := dictSet s.logLevelsByNamespace (some n) l })
    | none =>
      (.ok (), { s with logLevelsByNamespace := dictSet s.logLevelsByNamespace none l })

/-- `LogLevelFilterPredicate.clearLogLevels` (`_filter.py` lines 177-182):
`dict.clear()` then seed the `None` key with `self.defaultLogLevel`. -/
def clearLogLevels (s : LogLevelFilterPredicate) : LogLevelFilterPredicate :=
  { s with logLevelsByNamespace := fun k => if k = none then some s.defaultLogLevel else none }

/-- `LogLevelFilterPredicate.__init__` (`_filter.py` lines 118-121): empty
dict, store the default level, then `clearLogLevels()`. -/
def initPredicate (defaultLogLevel : LogLevel) : LogLevelFilterPredicate :=
  clearLogLevels { logLevelsByNamespace := fun _ => none, defaultLogLevel := defaultLogLevel }

/-- `LogLevelFilterPredicate.__call__` (`_filter.py` lines 185-198): read the
optional `log_level` and `log_namespace` fields, resolve the namespace
level, and return `no` when the level is missing, the namespace is missing,
or the event level's priority is below the namespace level's; otherwise
`maybe`. -/
def predicateCall (s : LogLevelFilterPredicate) (event : Event) :
    Except PyErr PredicateResult := do
  let eventLevel := event.log_level
  let ns := event.log_namespace
  let namespaceLevel ← logLevelForNamespace s ns
  match eventLevel, ns with
  | none, _ => pure .no
  | some _, none => pure .no
  | some l, some _ =>
    if priorityForLevel l < priorityForLevel namespaceLevel then pure .no
    else pure .maybe

/-- States of a `LogLevelFilterPredicate` reachable from
`__init__(defaultLevel)` by any sequence of `setLogLevelForNamespace` calls
(a failing call leaves the state unchanged, so only successful ones step)
and `clearLogLevels` calls. -/
inductive Reachable (defaultLevel : LogLevel) : LogLevelFilterPredicate → Prop where
  | init : Reachable defaultLevel (initPredicate defaultLevel)
  | set (s : LogLevelFilterPredicate) (ns : Option String) (level : PyLevel) :
      Reachable defaultLevel s →
      Reachable defaultLevel (setLogLevelForNamespace s ns level).2
  | clear (s : LogLevelFilterPredicate) :
      Reachable defaultLevel s → Reachable defaultLevel (clearLogLevels s)

/-- The dict key written by a successful
`setLogLevelForNamespace(namespace, level)` call: the exact namespace
string when truthy, the `None` key when the namespace is `None` or empty. -/
def targetKey : Option String → NSKey
  | none => none
  | some n => if n = "" then none else some n

/-- The dict keys the while loop of `logLevelForNamespace` may consult when
started at the given index: `".".join(segments[:i])` for `i` from the index
down to 1. -/
def ancestorKeys (segments : List String) : Nat → List NSKey
  | 0 => []
  | i + 1 => some (joinDots (segments.take (i + 1))) :: ancestorKeys segments i

/-- All dict keys a `logLevelForNamespace` call for the given namespace can
possibly consult: the `None` key for a falsy namespace; otherwise the exact
key, the dot-ancestor keys, and the `None` key. -/
def consultedKeys : Option String → List NSKey
  | none => [none]
  | some n =>
    if n = "" then [none]
    else
      some n :: (ancestorKeys (splitDots n) ((splitDots n).length - 1) ++ [none])

/-- A predicate that ignores the event and returns a fixed value. -/
def constPredicate (r : PredicateReturn) : Predicate := fun _ => r

/-- Sample resolver state for witnesses: constructed with default level
`info`, then `setLogLevelForNamespace("app", debug)`. -/
def demoState : LogLevelFilterPredicate :=
  (setLogLevelForNamespace (initPredicate .info) (some "app") (.level .debug)).2

/-- Sample event for witnesses. -/
def demoEvent : Event :=
  { log_level := some .warn, log_namespace := some "app.db", log_trace := none }

/-- Sample traced event for the `log_trace` path of
`FilteringLogObserver.__call__`. -/
def tracedEvent : Event :=
  { log_level := some .error, log_namespace := some "app", log_trace := some [] }

/-- A `FilteringLogObserver` with an empty predicate chain (so every event
passes). -/
def emptyChainObserver : FilteringLogObserver :=
  { selfId := 0, observerId := 1, predicates := [] }

/-! ## Helper lemmas -/

theorem shouldLogEvent_append_of_maybe (ps1 rest : List Predicate) (event : Event)
    (h : ∀ q ∈ ps1, q event = .valid .maybe) :
    shouldLogEvent (ps1 ++ rest) event = shouldLogEvent rest event := by
  induction ps1 with
  | nil => rfl
  | cons p ps ih =>
    have hp : p event = .valid .maybe := h p (List.mem_cons_self p ps)
    simp only [List.cons_append, shouldLogEvent, hp]
    exact ih (fun q hq => h q (List.mem_cons_of_mem p hq))

/-! ## Theorems for the claims -/

/-- C2: for every predicate sequence in which every invoked predicate
returns `maybe` — in particular the empty sequence — `shouldLogEvent`
returns `True` (default-permit on exhaustion). -/
theorem shouldLogEvent_all_maybe (ps : List Predicate) (event : Event)
    (h : ∀ q ∈ ps, q event = .valid .maybe) :
    shouldLogEvent ps event = .ok true := by
  have := shouldLogEvent_append_of_maybe ps [] event h
  simpa using this

/-- Witness for C2: the empty chain and an all-abstaining chain both yield
`True` on a concrete event. -/
theorem shouldLogEvent_all_maybe_witness :
    shouldLogEvent [] demoEvent = .ok true ∧
    shouldLogEvent [constPredicate (.valid .maybe), constPredicate (.valid .maybe)]
      demoEvent = .ok true := by
  constructor
  · exact shouldLogEvent_all_maybe [] demoEvent (by intro q hq; cases hq)
  · refine shouldLogEvent_all_maybe _ demoEvent ?_
    intro q hq
    simp only [List.mem_cons, List.not_mem_nil, or_false] at hq
    rcases hq with h | h <;> subst h <;> rfl

/-- C1: the first predicate (in order) whose result is not `maybe` decides
the outcome — `True` for `yes`, `False` for `no` — and predicates after it
are never invoked: the result does not depend on the rest of the chain. -/
theorem shouldLogEvent_first_decides (event : Event) (ps1 ps2 : List Predicate)
    (p : Predicate) (r : PredicateResult)
    (h1 : ∀ q ∈ ps1, q event = .valid .maybe)
    (h2 : p event = .valid r) (h3 : r ≠ .maybe) :
    shouldLogEvent (ps1 ++ p :: ps2) event = .ok (decide (r = .yes)) ∧
    ∀ ps2' : List Predicate,
      shouldLogEvent (ps1 ++ p :: ps2') event =
        shouldLogEvent (ps1 ++ p :: ps2) event := by
  have key : ∀ tail : List Predicate,
      shouldLogEvent (ps1 ++ p :: tail) event = .ok (decide (r = .yes)) := by
    intro tail
    rw [shouldLogEvent_append_of_maybe ps1 (p :: tail) event h1]
    cases r with
    | yes => simp [shouldLogEvent, h2]
    | no => simp [shouldLogEvent, h2]
    | maybe => exact absurd rfl h3
  exact ⟨key ps2, fun ps2' => (key ps2').trans (key ps2).symm⟩

/-- Witness for C1: in a chain `maybe`, `no`, `yes`, the `no` decides and
the trailing `yes` is irrelevant. -/
theorem shouldLogEvent_first_decides_witness :
    shouldLogEvent [constPredicate (.valid .maybe), constPredicate (.valid .no),
      constPredicate (.valid .yes)] demoEvent = .ok false := by
  have h := shouldLogEvent_first_decides demoEvent [constPredicate (.valid .maybe)]
    [constPredicate (.valid .yes)] (constPredicate (.valid .no)) .no
    (by intro q hq
        simp only [List.mem_cons, List.not_mem_nil, or_false] at hq
        subst hq; rfl)
    rfl (by decide)
  simpa using h.1

/-- C6: if some invoked predicate returns a value outside the
`PredicateResult` constants before any predicate has answered `yes` or
`no`, `shouldLogEvent` raises a `TypeError` naming the offending value, and
the error propagates out of `FilteringLogObserver.__call__` instead of
being turned into a boolean decision. -/
theorem shouldLogEvent_invalid_raises (event : Event) (ps1 ps2 : List Predicate)
    (p : Predicate) (v : String) (o : FilteringLogObserver)
    (h1 : ∀ q ∈ ps1, q event = .valid .maybe)
    (h2 : p event = .invalid v)
    (ho : o.predicates = ps1 ++ p :: ps2) :
    shouldLogEvent (ps1 ++ p :: ps2) event =
      .error (.typeError ("Invalid predicate result: " ++ v)) ∧
    FilteringLogObserver.call o event =
      .error (.typeError ("Invalid predicate result: " ++ v)) := by
  have hs : shouldLogEvent (ps1 ++ p :: ps2) event =
      .error (.typeError ("Invalid predicate result: " ++ v)) := by
    rw [shouldLogEvent_append_of_maybe ps1 (p :: ps2) event h1]
    simp [shouldLogEvent, h2]
  refine ⟨hs, ?_⟩
  unfold FilteringLogObserver.call
  rw [ho, hs]
  rfl

/-- Witness for C6: a chain `maybe`, then a predicate returning the string
`"banana"`, raises the `TypeError` out of the forwarding call. -/
theorem shouldLogEvent_invalid_raises_witness :
    FilteringLogObserver.call
      { selfId := 0, observerId := 1,
        predicates := [constPredicate (.valid .maybe), constPredicate (.invalid "banana")] }
      demoEvent = .error (.typeError ("Invalid predicate result: " ++ "banana")) := by
  have h := shouldLogEvent_invalid_raises demoEvent [constPredicate (.valid .maybe)]
    [] (constPredicate (.invalid "banana")) "banana"
    { selfId := 0, observerId := 1,
      predicates := [constPredicate (.valid .maybe), constPredicate (.invalid "banana")] }
    (by intro q hq
        simp only [List.mem_cons, List.not_mem_nil, or_false] at hq
        subst hq; rfl)
    rfl rfl
  exact h.2

/-- C5 (code evaluation at the failing input): with an empty predicate
chain (so the decision is `True`) and an event carrying a `log_trace` list,
`FilteringLogObserver.__call__` raises `AttributeError` for the name
`observer`: line 104 of `_filter.py` reads `self.observer`, but `__init__`
only ever sets `self._observer`, so no trace entry is appended and the
downstream observer is never invoked. -/
theorem filteringCall_trace_attributeError :
    FilteringLogObserver.call emptyChainObserver tracedEvent =
      .error (.attributeError "observer") := rfl

/-- If every dot-ancestor entry up to the start index is absent, the while
loop of `logLevelForNamespace` finds nothing. -/
theorem ancestorSearch_eq_none (m : NSKey → Option LogLevel) (segments : List String)
    (i : Nat)
    (h : ∀ j, 0 < j → j ≤ i → m (some (joinDots (segments.take j))) = none) :
    ancestorSearch m segments i = none := by
  induction i with
  | zero => rfl
  | succ i ih =>
    have hi := h (i + 1) (Nat.succ_pos i) (Nat.le_refl _)
    simp only [ancestorSearch, hi]
    exact ih (fun j hj hji => h j hj (Nat.le_succ_of_le hji))

/-- If the entry for `n` segments is present and every longer ancestor
tested by the while loop is absent, the loop returns the entry for `n`
segments: the longest configured ancestor wins. -/
theorem ancestorSearch_longest (m : NSKey → Option LogLevel) (segments : List String)
    (i n : Nat) (l : LogLevel) (hn : 0 < n) (hni : n ≤ i)
    (hl : m (some (joinDots (segments.take n))) = some l)
    (habove : ∀ j, n < j → j ≤ i → m (some (joinDots (segments.take j))) = none) :
    ancestorSearch m segments i = some l := by
  induction i with
  | zero => omega
  | succ i ih =>
    by_cases hcase : n = i + 1
    · subst hcase
      simp only [ancestorSearch, hl]
    · have hle : n ≤ i := by omega
      have htop : m (some (joinDots (segments.take (i + 1)))) = none :=
        habove (i + 1) (by omega) (Nat.le_refl _)
      simp only [ancestorSearch, htop]
      exact ih hle (fun j hj hji => habove j hj (Nat.le_succ_of_le hji))

/-- When the `None` entry is present, `logLevelForNamespace` always
succeeds. -/
theorem logLevelForNamespace_total (s : LogLevelFilterPredicate) (root : LogLevel)
    (hroot : s.logLevelsByNamespace none = some root) (ns : Option String) :
    ∃ l, logLevelForNamespace s ns = .ok l := by
  cases ns with
  | none => exact ⟨root, by simp [logLevelForNamespace, dictIndex, hroot]⟩
  | some n =>
    by_cases hn : n = ""
    · exact ⟨root, by simp [logLevelForNamespace, hn, dictIndex, hroot]⟩
    · cases hex : s.logLevelsByNamespace (some n) with
      | some l => exact ⟨l, by simp [logLevelForNamespace, hn, hex]⟩
      | none =>
        cases hanc : ancestorSearch s.logLevelsByNamespace (splitDots n)
            ((splitDots n).length - 1) with
        | some l => exact ⟨l, by simp [logLevelForNamespace, hn, hex, hanc]⟩
        | none =>
          exact ⟨root, by simp [logLevelForNamespace, hn, hex, hanc, dictIndex, hroot]⟩

/-- C3: whenever the root (`None`) entry is present — which every reachable
state guarantees — `logLevelForNamespace` never fails; a null or empty
namespace resolves to the root entry; an exact configured entry wins;
otherwise the configured dot-ancestor of maximal segment count among
`len(segments)-1` down to `1` wins; and with no configured ancestor the
root entry is returned. -/
theorem logLevelForNamespace_spec (s : LogLevelFilterPredicate) (root : LogLevel)
    (hroot : s.logLevelsByNamespace none = some root) :
    (∀ ns, ∃ l, logLevelForNamespace s ns = .ok l) ∧
    logLevelForNamespace s none = .ok root ∧
    logLevelForNamespace s (some "") = .ok root ∧
    (∀ n l, n ≠ "" → s.logLevelsByNamespace (some n) = some l →
      logLevelForNamespace s (some n) = .ok l) ∧
    (∀ n, n ≠ "" → s.logLevelsByNamespace (some n) = none →
      ∀ i l, 0 < i → i ≤ (splitDots n).length - 1 →
        s.logLevelsByNamespace (some (joinDots ((splitDots n).take i))) = some l →
        (∀ j, i < j → j ≤ (splitDots n).length - 1 →
          s.logLevelsByNamespace (some (joinDots ((splitDots n).take j))) = none) →
        logLevelForNamespace s (some n) = .ok l) ∧
    (∀ n, n ≠ "" → s.logLevelsByNamespace (some n) = none →
      (∀ j, 0 < j → j ≤ (splitDots n).length - 1 →
        s.logLevelsByNamespace (some (joinDots ((splitDots n).take j))) = none) →
      logLevelForNamespace s (some n) = .ok root) := by
  refine ⟨logLevelForNamespace_total s root hroot, ?_, ?_, ?_, ?_, ?_⟩
  · simp [logLevelForNamespace, dictIndex, hroot]
  · simp [logLevelForNamespace, dictIndex, hroot]
  · intro n l hn hex
    simp [logLevelForNamespace, hn, hex]
  · intro n hn hex i l hi hile hentry habove
    have hanc : ancestorSearch s.logLevelsByNamespace (splitDots n)
        ((splitDots n).length - 1) = some l :=
      ancestorSearch_longest s.logLevelsByNamespace (splitDots n)
        ((splitDots n).length - 1) i l hi hile hentry habove
    simp [logLevelForNamespace, hn, hex, hanc]
  · intro n hn hex hnone
    have hanc : ancestorSearch s.logLevelsByNamespace (splitDots n)
        ((splitDots n).length - 1) = none :=
      ancestorSearch_eq_none s.logLevelsByNamespace (splitDots n)
        ((splitDots n).length - 1) hnone
    simp [logLevelForNamespace, hn, hex, hanc, dictIndex, hroot]

/-- Witness for C3, the spec's scenario: default `info`,
`setLogLevelForNamespace("app", debug)`; then `"app.db"` resolves to
`debug` via its ancestor `"app"` and `"other"` resolves to the root
`info`. -/
theorem logLevelForNamespace_spec_witness :
    logLevelForNamespace demoState (some "app.db") = .ok .debug ∧
    logLevelForNamespace demoState (some "other") = .ok .info := by
  have h := logLevelForNamespace_spec demoState .info rfl
  constructor
  · exact h.2.2.2.2.1 "app.db" (by decide) rfl 1 .debug (by decide) (by decide) rfl
      (by intro j hj hle
          have hlen : (splitDots "app.db").length = 2 := rfl
          omega)
  · exact h.2.2.2.2.2 "other" (by decide) rfl
      (by intro j hj hle
          have hlen : (splitDots "other").length = 1 := rfl
          omega)

/-- C4: `LogLevelFilterPredicate.__call__` returns `no` exactly when the
event's `log_level` is absent, its `log_namespace` is absent, or the
level's priority is below that of the level resolved for the namespace;
otherwise it returns `maybe`; it never returns `yes`. -/
theorem predicateCall_spec (s : LogLevelFilterPredicate) (event : Event)
    (root : LogLevel) (hroot : s.logLevelsByNamespace none = some root) :
    ∃ namespaceLevel,
      logLevelForNamespace s event.log_namespace = .ok namespaceLevel ∧
      predicateCall s event = .ok
        (match event.log_level, event.log_namespace with
         | none, _ => .no
         | some _, none => .no
         | some l, some _ =>
           if priorityForLevel l < priorityForLevel namespaceLevel then .no
           else .maybe) ∧
      ∀ r, predicateCall s event = .ok r → r ≠ .yes := by
  obtain ⟨nl, hnl⟩ := logLevelForNamespace_total s root hroot event.log_namespace
  have hcall : predicateCall s event = .ok
      (match event.log_level, event.log_namespace with
       | none, _ => PredicateResult.no
       | some _, none => PredicateResult.no
       | some l, some _ =>
         if priorityForLevel l < priorityForLevel nl then PredicateResult.no
         else PredicateResult.maybe) := by
    unfold predicateCall
    simp only [hnl]
    cases hl : event.log_level <;> cases hn : event.log_namespace <;>
      simp [Bind.bind, Except.bind, pure, Except.pure, hl, hn, apply_ite]
  refine ⟨nl, hnl, hcall, ?_⟩
  intro r hr
  rw [hcall] at hr
  replace hr := Except.ok.inj hr
  subst hr
  cases hl : event.log_level <;> cases hn : event.log_namespace <;>
    simp only [hl, hn] <;>
    first
      | (split <;> simp)
      | simp

/-- Witness for C4: with the demo resolver, an event with neither level nor
namespace is denied. -/
theorem predicateCall_spec_witness :
    predicateCall demoState
      { log_level := none, log_namespace := none, log_trace := none } = .ok .no := by
  obtain ⟨nl, -, hcall, -⟩ := predicateCall_spec demoState
    { log_level := none, log_namespace := none, log_trace := none } .info rfl
  exact hcall

/-- C7: `setLogLevelForNamespace` with a value outside the `LogLevel`
constants fails with `InvalidLogLevelError` naming that value, and the
state after the call — mapping entries, the root entry and the stored
default — is exactly the state before. -/
theorem setLogLevelForNamespace_invalid (s : LogLevelFilterPredicate)
    (ns : Option String) (v : String) :
    setLogLevelForNamespace s ns (.other v) =
      (.error (.invalidLogLevelError v), s) ∧
    (∀ k, (setLogLevelForNamespace s ns (.other v)).2.logLevelsByNamespace k =
      s.logLevelsByNamespace k) ∧
    (setLogLevelForNamespace s ns (.other v)).2.defaultLogLevel = s.defaultLogLevel :=
  ⟨rfl, fun _ => rfl, rfl⟩

/-- `setLogLevelForNamespace` never touches the `defaultLogLevel`
attribute. -/
theorem setLogLevelForNamespace_defaultLogLevel (s : LogLevelFilterPredicate)
    (ns : Option String) (lvl : PyLevel) :
    (setLogLevelForNamespace s ns lvl).2.defaultLogLevel = s.defaultLogLevel := by
  cases lvl with
  | other v => rfl
  | level l =>
    cases ns with
    | none => rfl
    | some n => by_cases hn : n = "" <;> simp [setLogLevelForNamespace, hn]

/-- Every reachable state still stores the originally configured default
level. -/
theorem reachable_defaultLogLevel (d : LogLevel) (s : LogLevelFilterPredicate)
    (h : Reachable d s) : s.defaultLogLevel = d := by
  induction h with
  | init => rfl
  | set s' ns lvl _ ih => rw [setLogLevelForNamespace_defaultLogLevel]; exact ih
  | clear s' _ ih => exact ih

/-- After `clearLogLevels`, every namespace resolves to the stored default
level. -/
theorem clearLogLevels_resolve (s : LogLevelFilterPredicate) (ns : Option String) :
    logLevelForNamespace (clearLogLevels s) ns = .ok s.defaultLogLevel := by
  cases ns with
  | none => rfl
  | some n =>
    by_cases hn : n = ""
    · subst hn; rfl
    · have hex : (clearLogLevels s).logLevelsByNamespace (some n) = none := by
        simp [clearLogLevels]
      have hanc : ancestorSearch (fun k => if k = none then some s.defaultLogLevel else none)
          (splitDots n) ((splitDots n).length - 1) = none :=
        ancestorSearch_eq_none _ _ _ (fun j _ _ => by simp)
      simp [logLevelForNamespace, hn, hex, hanc, dictIndex, clearLogLevels]

/-- C8: from any reachable resolver state, after `clearLogLevels` every
`logLevelForNamespace` call, for any namespace, returns the originally
configured default level. -/
theorem clearLogLevels_resolves_default (d : LogLevel) (s : LogLevelFilterPredicate)
    (h : Reachable d s) (ns : Option String) :
    logLevelForNamespace (clearLogLevels s) ns = .ok d := by
  rw [clearLogLevels_resolve s ns, reachable_defaultLogLevel d s h]

/-- Witness for C8: set `"app"` to `debug`, clear, and every namespace is
back at the default `info`. -/
theorem clearLogLevels_resolves_default_witness :
    logLevelForNamespace (clearLogLevels demoState) (some "app.db") = .ok .info :=
  clearLogLevels_resolves_default .info demoState
    (Reachable.set (initPredicate .info) (some "app") (.level .debug) Reachable.init)
    (some "app.db")

/-- C9: the root (`None`) entry is present in every reachable state:
seeded by `__init__`, preserved by `setLogLevelForNamespace` (failing calls
change nothing, successful ones only add entries or overwrite the root) and
restored by `clearLogLevels`. -/
theorem root_entry_always_present (d : LogLevel) (s : LogLevelFilterPredicate)
    (h : Reachable d s) : ∃ l, s.logLevelsByNamespace none = some l := by
  induction h with
  | init => exact ⟨d, rfl⟩
  | set s' ns lvl _ ih =>
    cases lvl with
    | other v => exact ih
    | level l =>
      cases ns with
      | none => exact ⟨l, by simp [setLogLevelForNamespace, dictSet]⟩
      | some n =>
        by_cases hn : n = ""
        · exact ⟨l, by simp [setLogLevelForNamespace, hn, dictSet]⟩
        · obtain ⟨l0, hl0⟩ := ih
          exact ⟨l0, by simp [setLogLevelForNamespace, hn, dictSet, hl0]⟩
  | clear s' _ ih => exact ⟨s'.defaultLogLevel, rfl⟩

/-- Witness for C9: the root entry of the demo state. -/
theorem root_entry_always_present_witness :
    ∃ l, demoState.logLevelsByNamespace none = some l :=
  root_entry_always_present .info demoState
    (Reachable.set (initPredicate .info) (some "app") (.level .debug) Reachable.init)

/-- The while loop of `logLevelForNamespace` only reads the ancestor keys:
two dicts that agree on them search identically. -/
theorem ancestorSearch_congr (m1 m2 : NSKey → Option LogLevel)
    (segments : List String) (i : Nat)
    (h : ∀ k ∈ ancestorKeys segments i, m1 k = m2 k) :
    ancestorSearch m1 segments i = ancestorSearch m2 segments i := by
  induction i with
  | zero => rfl
  | succ i ih =>
    have hk := h (some (joinDots (segments.take (i + 1))))
      (by simp [ancestorKeys])
    simp only [ancestorSearch, hk]
    cases hv : m2 (some (joinDots (segments.take (i + 1)))) with
    | some l => rfl
    | none =>
      exact ih (fun k hkmem => h k (by simp only [ancestorKeys, List.mem_cons]; right; exact hkmem))

/-- `logLevelForNamespace` only reads the consulted keys of its namespace:
two states that agree on them resolve identically. -/
theorem logLevelForNamespace_congr (s1 s2 : LogLevelFilterPredicate)
    (ns : Option String)
    (h : ∀ k ∈ consultedKeys ns,
      s1.logLevelsByNamespace k = s2.logLevelsByNamespace k) :
    logLevelForNamespace s1 ns = logLevelForNamespace s2 ns := by
  cases ns with
  | none =>
    have h0 := h none (by simp [consultedKeys])
    simp [logLevelForNamespace, dictIndex, h0]
  | some n =>
    by_cases hn : n = ""
    · subst hn
      have h0 := h none (by simp [consultedKeys])
      simp [logLevelForNamespace, dictIndex, h0]
    · have hex := h (some n) (by simp [consultedKeys, hn])
      have hanc : ancestorSearch s1.logLevelsByNamespace (splitDots n)
          ((splitDots n).length - 1) =
          ancestorSearch s2.logLevelsByNamespace (splitDots n)
            ((splitDots n).length - 1) :=
        ancestorSearch_congr _ _ _ _
          (fun k hk => h k (by simp [consultedKeys, hn]; tauto))
      have h0 := h none (by simp [consultedKeys, hn])
      simp only [logLevelForNamespace, hn, hex, hanc, dictIndex, h0,
        if_neg hn]

/-- C10: a successful `setLogLevelForNamespace` call succeeds, writes its
own key (the exact namespace, or the `None` key for a falsy namespace),
leaves every other entry and the stored default unchanged, and leaves
`logLevelForNamespace` unchanged for every namespace whose resolution does
not consult the written key. -/
theorem setLogLevelForNamespace_frame (s : LogLevelFilterPredicate)
    (ns : Option String) (l : LogLevel) :
    (setLogLevelForNamespace s ns (.level l)).1 = .ok () ∧
    (setLogLevelForNamespace s ns (.level l)).2.logLevelsByNamespace
      (targetKey ns) = some l ∧
    (∀ k, k ≠ targetKey ns →
      (setLogLevelForNamespace s ns (.level l)).2.logLevelsByNamespace k =
        s.logLevelsByNamespace k) ∧
    (setLogLevelForNamespace s ns (.level l)).2.defaultLogLevel =
      s.defaultLogLevel ∧
    (∀ ns', targetKey ns ∉ consultedKeys ns' →
      logLevelForNamespace (setLogLevelForNamespace s ns (.level l)).2 ns' =
        logLevelForNamespace s ns') := by
  have hstate : (setLogLevelForNamespace s ns (.level l)).2 =
      { s with logLevelsByNamespace :=
          dictSet s.logLevelsByNamespace (targetKey ns) l } := by
    cases ns with
    | none => rfl
    | some n => by_cases hn : n = "" <;> simp [setLogLevelForNamespace, targetKey, hn]
  have hfirst : (setLogLevelForNamespace s ns (.level l)).1 = .ok () := by
    cases ns with
    | none => rfl
    | some n => by_cases hn : n = "" <;> simp [setLogLevelForNamespace, hn]
  refine ⟨hfirst, ?_, ?_, ?_, ?_⟩
  · rw [hstate]; simp [dictSet]
  · intro k hk
    rw [hstate]
    simp [dictSet, hk]
  · rw [hstate]
  · intro ns' hns'
    apply logLevelForNamespace_congr
    intro k hkmem
    rw [hstate]
    have hne : k ≠ targetKey ns := fun he => hns' (he ▸ hkmem)
    simp [dictSet, hne]

/-- Witness for C10: setting `"app"` to `debug` succeeds, does not touch the
entry for `"web"`, and does not change the resolution of
`"web.server"`. -/
theorem setLogLevelForNamespace_frame_witness :
    (setLogLevelForNamespace (initPredicate .info) (some "app")
      (.level .debug)).2.logLevelsByNamespace (some "web") =
      (initPredicate .info).logLevelsByNamespace (some "web") ∧
    logLevelForNamespace
      (setLogLevelForNamespace (initPredicate .info) (some "app")
        (.level .debug)).2 (some "web.server") =
      logLevelForNamespace (initPredicate .info) (some "web.server") := by
  have h := setLogLevelForNamespace_frame (initPredicate .info) (some "app") .debug
  exact ⟨h.2.2.1 (some "web") (by decide), h.2.2.2.2 (some "web.server") (by decide)⟩

end TwistedFilter
